import Mathlib

/-!
Verification of the smart-condominio-web frontend service layer.

The development shallowly embeds the TypeScript service modules
(`services/api.ts`, `services/auth.service.ts`, the per-entity services and
the list pages) as executable Lean definitions, and proves the behavioural
properties stated about them.

JavaScript runtime values that the code inspects dynamically (response
bodies, error payloads) are modelled by the inductive type `JValue`;
JavaScript truthiness, property access with optional chaining, and the
nullish-coalescing operator are modelled explicitly.
-/

namespace CondoWeb

/-- A JavaScript runtime value, as far as the services inspect them:
null, undefined, booleans, numbers (integral, the only numbers the code
compares), strings, arrays and plain objects (ordered field lists). -/
inductive JValue where
  | null
  | undefined
  | bool (b : Bool)
  | num (n : Int)
  | str (s : String)
  | arr (elems : List JValue)
  | obj (fields : List (String × JValue))

/-- JavaScript truthiness for the modelled values: null, undefined, false,
0 and the empty string are falsy; arrays and objects are always truthy. -/
def jsTruthy : JValue → Bool
  | .null => false
  | .undefined => false
  | .bool b => b
  | .num n => n != 0
  | .str s => s != ""
  | .arr _ => true
  | .obj _ => true

/-- Array.isArray. -/
def jsIsArray : JValue → Bool
  | .arr _ => true
  | _ => false

/-- Property access with optional chaining (`v?.k`): a missing field, or a
receiver that is not an object, yields undefined.  (On null/undefined the
code always uses `?.`, which short-circuits to undefined.) -/
def getProp (v : JValue) (k : String) : JValue :=
  match v with
  | .obj fields =>
    match fields.lookup k with
    | some x => x
    | none => .undefined
  | _ => .undefined

/-- The nullish-coalescing operator `a ?? b`. -/
def jsNullish (a b : JValue) : JValue :=
  match a with
  | .null => b
  | .undefined => b
  | _ => a

/-- The `{ total, results }` shape produced by `normalizeList`.  The code
declares `total : number`, but at runtime it is whatever `data.count`
holds, so the model keeps it a `JValue`. -/
structure NormalizedList where
  total : JValue
  results : List JValue

/-- `normalizeList` from `services/guardias.service.ts` (the same function
is repeated verbatim in `visitantes`, `vehiculos`, `mascotas`,
`solicitudes` and `reportes` services):

  if (Array.isArray(data)) return \x7b total: data.length, results: data \x7d
  if (data && Array.isArray(data.results))
    return \x7b total: data.count ?? data.results.length, results: data.results \x7d
  return \x7b total: 0, results: [] \x7d
-/
def normalizeList (data : JValue) : NormalizedList :=
  if jsIsArray data then
    match data with
    | .arr l => ⟨.num l.length, l⟩
    | _ => ⟨.num 0, []⟩
  else if jsTruthy data ∧ jsIsArray (getProp data "results") then
    match getProp data "results" with
    | .arr rs => ⟨jsNullish (getProp data "count") (.num rs.length), rs⟩
    | _ => ⟨.num 0, []⟩
  else
    ⟨.num 0, []⟩

theorem getProp_results_arr_truthy {v : JValue} {rs : List JValue}
    (h : getProp v "results" = .arr rs) : jsTruthy v = true := by
  cases v <;> simp_all [getProp, jsTruthy]

/-- C3: `normalizeList` is total over arbitrary response data: an array
input yields its own length and elements; an object whose `results` field
is an array yields that array together with `count ?? results.length`
(the fallback firing exactly when `count` is null or undefined); every
other input yields `⟨0, []⟩`. -/
theorem C3_normalizeList_cases :
    (∀ l : List JValue, normalizeList (.arr l) = ⟨.num l.length, l⟩)
  ∧ (∀ (v : JValue) (rs : List JValue), jsIsArray v = false →
      getProp v "results" = .arr rs →
      normalizeList v = ⟨jsNullish (getProp v "count") (.num rs.length), rs⟩)
  ∧ (∀ v : JValue, jsIsArray v = false →
      jsIsArray (getProp v "results") = false →
      normalizeList v = ⟨.num 0, []⟩)
  ∧ (∀ b : JValue, jsNullish .null b = b)
  ∧ (∀ b : JValue, jsNullish .undefined b = b)
  ∧ (∀ a b : JValue, a ≠ .null → a ≠ .undefined → jsNullish a b = a) := by
  refine ⟨?_, ?_, ?_, ?_, ?_, ?_⟩
  · intro l; rfl
  · intro v rs hv hres
    have ht := getProp_results_arr_truthy hres
    simp [normalizeList, hv, hres, ht, show jsIsArray (JValue.arr rs) = true from rfl]
  · intro v hv hres
    simp [normalizeList, hv, hres]
  · intro b; rfl
  · intro b; rfl
  · intro a b ha hb
    cases a <;> simp_all [jsNullish]

/-- Witness for C3 at concrete inputs. -/
theorem C3_normalizeList_cases_witness :
    normalizeList (.obj [("count", JValue.num 7), ("results", JValue.arr [JValue.null])])
      = ⟨.num 7, [JValue.null]⟩ ∧
    normalizeList (.obj [("count", JValue.null), ("results", JValue.arr [JValue.null])])
      = ⟨.num 1, [JValue.null]⟩ ∧
    normalizeList (.str "oops") = ⟨.num 0, []⟩ := by
  refine ⟨?_, ?_, ?_⟩
  · exact C3_normalizeList_cases.2.1 _ [JValue.null] rfl rfl
  · exact C3_normalizeList_cases.2.1 _ [JValue.null] rfl rfl
  · exact C3_normalizeList_cases.2.2.1 _ rfl rfl

/-! ### services/api.ts: headers and the request interceptor -/

/-- The header carrier of a request config: either a genuine `AxiosHeaders`
instance or a plain object, with its entries. -/
structure HeadersObj where
  isAxios : Bool
  entries : List (String × String)
deriving Repr, DecidableEq

/-- `AxiosHeaders.set(k, v)`: overwrite the entry for `k` when present,
append it otherwise. -/
def axSet (hs : List (String × String)) (k v : String) : List (String × String) :=
  if hs.any (fun p => p.1 == k) then
    hs.map (fun p => if p.1 == k then (k, v) else p)
  else hs ++ [(k, v)]

/-- Header lookup: value of the first entry named `k`. -/
def axGet (hs : List (String × String)) (k : String) : Option String :=
  (hs.find? (fun p => p.1 == k)).map Prod.snd

/-- A request config, as far as the interceptors touch it: the headers plus
the remaining fields (url, method), which the interceptors never change. -/
structure ReqConfig where
  url : String
  method : String
  headers : Option HeadersObj
deriving Repr, DecidableEq

/-- The three-branch `AxiosHeaders` coercion repeated at api.ts lines
18-22, 62-66 and 85-89: missing headers become an empty `AxiosHeaders`,
a plain object is wrapped into one, an instance is kept. -/
def ensureAxiosHeaders : Option HeadersObj → HeadersObj
  | none => ⟨true, []⟩
  | some h => if h.isAxios then h else ⟨true, h.entries⟩

/-- JavaScript truthiness of the in-memory token variable
(`string | null`): null and the empty string are falsy. -/
def jsTruthyToken : Option String → Bool
  | none => false
  | some s => s != ""

/-- The request interceptor (api.ts lines 16-28): coerce the headers to an
`AxiosHeaders` object, and when the in-memory access token is truthy set
the Authorization header to the bearer form of the token. -/
def requestInterceptor (accessToken : Option String) (config : ReqConfig) : ReqConfig :=
  let hs := ensureAxiosHeaders config.headers
  if jsTruthyToken accessToken then
    { config with
        headers := some ⟨true, axSet hs.entries "Authorization" ("Bearer " ++ accessToken.getD "")⟩ }
  else
    { config with headers := some hs }

/-- The Authorization header of a config, if any. -/
def configAuthHeader (c : ReqConfig) : Option String :=
  match c.headers with
  | none => none
  | some h => axGet h.entries "Authorization"

theorem axGet_axSet (hs : List (String × String)) (k v : String) :
    axGet (axSet hs k v) k = some v := by
  induction hs with
  | nil => simp [axSet, axGet]
  | cons p t ih =>
    by_cases hp : p.1 == k
    · simp [axSet, axGet, hp, eq_of_beq hp]
    · have hstep : axSet (p :: t) k v = p :: axSet t k v := by
        simp only [axSet, List.any_cons, hp, Bool.false_or, List.map_cons, if_neg hp]
        split <;> simp
      rw [hstep]
      simpa [axGet, List.find?_cons, hp] using ih

theorem ensureAxiosHeaders_entries : ∀ oh : Option HeadersObj,
    (ensureAxiosHeaders oh).entries = (oh.map HeadersObj.entries).getD [] := by
  intro oh
  match oh with
  | none => rfl
  | some h => simp [ensureAxiosHeaders]; split <;> simp

theorem ensureAxiosHeaders_isAxios (oh : Option HeadersObj) :
    (ensureAxiosHeaders oh).isAxios = true := by
  match oh with
  | none => rfl
  | some h =>
    simp only [ensureAxiosHeaders]
    split <;> simp_all

/-- C4 counterexample: the claim says the Authorization header is attached
whenever the in-memory token is non-null, but the code tests JavaScript
truthiness (`if (accessToken)`), so the non-null empty-string token gets
no Authorization header. -/
theorem C4_request_attach_counterexample :
    (some "" : Option String) ≠ none
  ∧ configAuthHeader (requestInterceptor (some "") ⟨"/guardias/", "get", none⟩) = none :=
  ⟨by simp, rfl⟩

/-- C4 (amended): the request interceptor attaches
Authorization: Bearer (accessToken) exactly when the in-memory token is
non-null and non-empty (truthy); when the token is null or empty it adds
no header and returns the coerced headers unchanged; in both cases the
result is a well-formed AxiosHeaders object and url/method are unchanged. -/
theorem C4_request_attach_amended (tok : Option String) (c : ReqConfig) :
    (∃ hs : HeadersObj, (requestInterceptor tok c).headers = some hs ∧ hs.isAxios = true)
  ∧ (requestInterceptor tok c).url = c.url
  ∧ (requestInterceptor tok c).method = c.method
  ∧ (∀ s : String, tok = some s → s ≠ "" →
      configAuthHeader (requestInterceptor tok c) = some ("Bearer " ++ s))
  ∧ ((tok = none ∨ tok = some "") →
      (requestInterceptor tok c).headers = some (ensureAxiosHeaders c.headers)
      ∧ (ensureAxiosHeaders c.headers).entries
          = (c.headers.map HeadersObj.entries).getD []) := by
  refine ⟨?_, ?_, ?_, ?_, ?_⟩
  · by_cases ht : jsTruthyToken tok = true
    · exact ⟨⟨true, axSet (ensureAxiosHeaders c.headers).entries "Authorization"
          ("Bearer " ++ tok.getD "")⟩, by simp [requestInterceptor, ht], rfl⟩
    · refine ⟨ensureAxiosHeaders c.headers, by simp [requestInterceptor, ht], ?_⟩
      exact ensureAxiosHeaders_isAxios c.headers
  · by_cases ht : jsTruthyToken tok = true <;> simp [requestInterceptor, ht]
  · by_cases ht : jsTruthyToken tok = true <;> simp [requestInterceptor, ht]
  · intro s hs hne
    subst hs
    have ht : jsTruthyToken (some s) = true := by simp [jsTruthyToken, hne]
    simp [requestInterceptor, ht, configAuthHeader, axGet_axSet]
  · intro hfalsy
    have ht : jsTruthyToken tok = false := by
      rcases hfalsy with h | h <;> subst h <;> rfl
    refine ⟨by simp [requestInterceptor, ht], ensureAxiosHeaders_entries c.headers⟩

/-- Witness for C4 (amended) at a concrete truthy token and a plain-object
header carrier. -/
theorem C4_request_attach_amended_witness :
    configAuthHeader
        (requestInterceptor (some "tok123")
          ⟨"/guardias/", "get", some ⟨false, [("Accept", "application/json")]⟩⟩)
      = some ("Bearer " ++ "tok123") :=
  (C4_request_attach_amended (some "tok123") _).2.2.2.1 "tok123" rfl (by decide)

/-! ### services/api.ts: the response interceptor (refresh on 401)

The runtime is single-threaded, so the interceptor's error handler runs
atomically up to its first `await`; the refresh POST is the only await.
The model therefore splits the handler into the synchronous decision
(`handleError`) and the continuation that runs when the refresh POST
settles (`runRefresh`).  Requests are identified by a numeric id; a
queued callback closes over its own request config and its own original
401 error, which the model records by carrying the id through. -/

/-- An error's request config, as far as the handler inspects it: the
request identity and the `_retry` mark. -/
structure ErrCfg where
  reqId : Nat
  retryFlag : Bool
deriving Repr, DecidableEq

/-- An axios error: its config and `error.response?.status`
(none when no response arrived). -/
structure HttpError where
  config : ErrCfg
  status : Option Int
deriving Repr, DecidableEq

/-- What the synchronous part of the error handler does with a given
error: reject it to the caller, start the refresh call, or subscribe the
request to the pending queue. -/
inductive RespAction where
  | reject
  | beginRefresh
  | enqueue
deriving Repr, DecidableEq

/-- The mutable module state of api.ts: the in-memory token, the two
localStorage slots, the `isRefreshing` flag and the `pending` queue. -/
structure ApiState where
  accessToken : Option String
  storedAccess : Option String
  storedRefresh : Option String
  isRefreshing : Bool
  pending : List Nat
deriving Repr, DecidableEq

/-- The synchronous decision of the response interceptor's error branch
(api.ts lines 42-99): a 401 whose config is not yet marked `_retry` is
marked, and either begins a refresh (when none is in flight) or is
appended to the pending queue; every other error is rejected unchanged. -/
def handleError (st : ApiState) (e : HttpError) : ApiState × RespAction × ErrCfg :=
  if e.status = some 401 ∧ e.config.retryFlag = false then
    let original : ErrCfg := { e.config with retryFlag := true }
    if st.isRefreshing = false then
      ({ st with isRefreshing := true }, .beginRefresh, original)
    else
      ({ st with pending := st.pending ++ [original.reqId] }, .enqueue, original)
  else
    (st, .reject, e.config)

/-- The settled fate of a request: retried through the api instance with
the given Authorization header value, or rejected with its own original
error (identified by the request id the error belongs to). -/
inductive Outcome where
  | retried (reqId : Nat) (authorization : String)
  | rejected (reqId : Nat)
deriving Repr, DecidableEq

/-- The refresh continuation (api.ts lines 50-77), entered with
`isRefreshing` already set: read the stored refresh token (throwing when
absent), await the refresh POST (`postResult`: the new access token on
fulfilment, none on rejection).  On success the new token is stored,
published to every queued callback (each replays its request once with
the new bearer header) and the original request is retried; on any
failure the storage is cleared, the token nulled, every queued callback
rejects with its own error, and the original error is rejected; the
`finally` clause resets `isRefreshing` either way. -/
def runRefresh (st : ApiState) (postResult : Option String) (origId : Nat) :
    ApiState × List Outcome :=
  match st.storedRefresh with
  | none =>
    ({ st with storedAccess := none, storedRefresh := none, accessToken := none,
               pending := [], isRefreshing := false },
     st.pending.map Outcome.rejected ++ [Outcome.rejected origId])
  | some _ =>
    match postResult with
    | some newAccess =>
      ({ st with storedAccess := some newAccess, accessToken := some newAccess,
                 pending := [], isRefreshing := false },
       st.pending.map (fun r => Outcome.retried r ("Bearer " ++ newAccess))
         ++ [Outcome.retried origId ("Bearer " ++ newAccess)])
    | none =>
      ({ st with storedAccess := none, storedRefresh := none, accessToken := none,
                 pending := [], isRefreshing := false },
       st.pending.map Outcome.rejected ++ [Outcome.rejected origId])

/-- C1: while a refresh is in flight a fresh 401 does not begin a second
refresh but is appended to the pending queue; a refresh only ever begins
from the not-refreshing state (so at most one is in flight); and when the
in-flight refresh succeeds, every queued request is replayed exactly once
(the queue is emptied and the outcome list replays it element by element)
with the new access token as bearer Authorization header. -/
theorem C1_single_refresh (st : ApiState) (e : HttpError) (newTok : String)
    (rt : String) (origId : Nat) :
    (st.isRefreshing = true → e.status = some 401 → e.config.retryFlag = false →
      handleError st e =
        ({ st with pending := st.pending ++ [e.config.reqId] }, .enqueue,
         { e.config with retryFlag := true }))
  ∧ ((handleError st e).2.1 = .beginRefresh → st.isRefreshing = false)
  ∧ (st.storedRefresh = some rt →
      runRefresh st (some newTok) origId =
        ({ st with storedAccess := some newTok, accessToken := some newTok,
                   pending := [], isRefreshing := false },
         st.pending.map (fun r => Outcome.retried r ("Bearer " ++ newTok))
           ++ [Outcome.retried origId ("Bearer " ++ newTok)])) := by
  refine ⟨?_, ?_, ?_⟩
  · intro href h401 hretry
    simp [handleError, h401, hretry, href]
  · intro hact
    by_cases hcond : e.status = some 401 ∧ e.config.retryFlag = false
    · by_cases href : st.isRefreshing = false
      · exact href
      · exfalso
        simp [handleError, hcond, href] at hact
    · exfalso
      simp [handleError, hcond] at hact
  · intro hrt
    simp [runRefresh, hrt]

/-- Witness for C1 at a concrete in-flight state with two queued requests. -/
theorem C1_single_refresh_witness :
    handleError ⟨some "a", some "a", some "r", true, [7, 8]⟩ ⟨⟨9, false⟩, some 401⟩
      = (⟨some "a", some "a", some "r", true, [7, 8, 9]⟩, .enqueue, ⟨9, true⟩)
  ∧ runRefresh ⟨some "a", some "a", some "r", true, [7, 8]⟩ (some "new") 9
      = (⟨some "new", some "new", some "r", false, []⟩,
         [.retried 7 "Bearer new", .retried 8 "Bearer new", .retried 9 "Bearer new"]) := by
  have h := C1_single_refresh ⟨some "a", some "a", some "r", true, [7, 8]⟩
    ⟨⟨9, false⟩, some 401⟩ "new" "r" 9
  exact ⟨h.1 rfl rfl rfl, h.2.2 rfl⟩

/-- C2: the automatic retry happens at most once per request: whatever else
the handler does with an error, it marks the forwarded config `_retry`;
and an error whose status is not 401, or whose config already carries the
mark, is rejected to the caller with the state untouched (no refresh
begun, nothing queued). -/
theorem C2_retry_at_most_once (st : ApiState) (e : HttpError) :
    ((e.status ≠ some 401 ∨ e.config.retryFlag = true) →
      handleError st e = (st, .reject, e.config))
  ∧ ((handleError st e).2.1 ≠ .reject → (handleError st e).2.2.retryFlag = true) := by
  constructor
  · intro h
    have hcond : ¬(e.status = some 401 ∧ e.config.retryFlag = false) := by
      rcases h with h | h
      · exact fun hc => h hc.1
      · exact fun hc => by rw [h] at hc; exact nomatch hc.2
    simp [handleError, hcond]
  · intro hact
    by_cases hcond : e.status = some 401 ∧ e.config.retryFlag = false
    · simp only [handleError, if_pos hcond]
      split <;> rfl
    · exfalso
      apply hact
      simp [handleError, hcond]

/-- Witness for C2: an already-retried 401 is rejected unchanged, and a
first-time 401 is forwarded with the mark set. -/
theorem C2_retry_at_most_once_witness :
    handleError ⟨none, none, none, false, []⟩ ⟨⟨3, true⟩, some 401⟩
      = (⟨none, none, none, false, []⟩, .reject, ⟨3, true⟩)
  ∧ (handleError ⟨none, none, none, false, []⟩ ⟨⟨3, false⟩, some 401⟩).2.2.retryFlag = true := by
  have h1 := C2_retry_at_most_once ⟨none, none, none, false, []⟩ ⟨⟨3, true⟩, some 401⟩
  have h2 := C2_retry_at_most_once ⟨none, none, none, false, []⟩ ⟨⟨3, false⟩, some 401⟩
  exact ⟨h1.1 (Or.inr rfl), h2.2 (by decide)⟩

/-- C8: when the refresh attempt fails — no refresh token in storage, or
the refresh POST rejects — both storage slots are cleared, the in-memory
token is nulled, every queued request is rejected with its own original
error, the flag is reset, the original request's error is rejected, and
no request at all is retried. -/
theorem C8_refresh_failure (st : ApiState) (postResult : Option String) (origId : Nat) :
    (st.storedRefresh = none ∨ postResult = none) →
      runRefresh st postResult origId =
        ({ st with storedAccess := none, storedRefresh := none, accessToken := none,
                   pending := [], isRefreshing := false },
         st.pending.map Outcome.rejected ++ [Outcome.rejected origId])
      ∧ ∀ o ∈ (runRefresh st postResult origId).2, ∀ r auth, o ≠ Outcome.retried r auth := by
  intro hfail
  have heq : runRefresh st postResult origId =
      ({ st with storedAccess := none, storedRefresh := none, accessToken := none,
                 pending := [], isRefreshing := false },
       st.pending.map Outcome.rejected ++ [Outcome.rejected origId]) := by
    rcases hfail with h | h
    · simp [runRefresh, h]
    · subst h
      cases hrt : st.storedRefresh <;> simp [runRefresh, hrt]
  refine ⟨heq, ?_⟩
  rw [heq]
  intro o ho r auth
  simp only [List.mem_append, List.mem_map, List.mem_singleton] at ho
  rcases ho with ⟨x, _, rfl⟩ | rfl <;> exact fun h => nomatch h

/-- Witness for C8 at a concrete state whose refresh POST rejects. -/
theorem C8_refresh_failure_witness :
    runRefresh ⟨some "a", some "a", some "r", true, [4, 5]⟩ none 6
      = (⟨none, none, none, false, []⟩, [.rejected 4, .rejected 5, .rejected 6]) :=
  (C8_refresh_failure ⟨some "a", some "a", some "r", true, [4, 5]⟩ none 6 (Or.inr rfl)).1

/-! ### services/auth.service.ts: logout -/

/-- The session state that logout touches: the two localStorage slots and
the in-memory access token. -/
structure AuthState where
  storedAccess : Option String
  storedRefresh : Option String
  accessToken : Option String
deriving Repr, DecidableEq

/-- `logout` (auth.service.ts lines 46-53): read the stored refresh token;
when it is truthy POST it to /auth/logout/ inside a try whose catch is a
no-op (`postResult` models how that POST settles); then unconditionally
clear both storage slots and null the in-memory token.  The first
component is how the logout promise itself settles. -/
def logoutModel (st : AuthState) (postResult : Except String Unit) :
    Except String Unit × AuthState :=
  let afterTry : Except String Unit :=
    if jsTruthyToken st.storedRefresh then
      match postResult with
      | .ok u => .ok u
      | .error _ => .ok ()
    else .ok ()
  match afterTry with
  | .ok _ => (.ok (), { storedAccess := none, storedRefresh := none, accessToken := none })
  | .error e => (.error e, st)

/-- C9: logout never throws and always ends the local session — whatever
the logout POST does (and also when no refresh token is stored), both
storage slots are cleared and the in-memory token is nulled, and a
request sent afterwards through the request interceptor gets no
Authorization header added (a config without one stays without one). -/
theorem C9_logout_total (st : AuthState) (postResult : Except String Unit) :
    (logoutModel st postResult).1 = .ok ()
  ∧ (logoutModel st postResult).2 = ⟨none, none, none⟩
  ∧ (∀ c : ReqConfig,
      (requestInterceptor (logoutModel st postResult).2.accessToken c).headers
        = some (ensureAxiosHeaders c.headers))
  ∧ (∀ c : ReqConfig, c.headers = none →
      configAuthHeader (requestInterceptor (logoutModel st postResult).2.accessToken c)
        = none) := by
  have hmodel : logoutModel st postResult
      = (.ok (), { storedAccess := none, storedRefresh := none, accessToken := none }) := by
    simp only [logoutModel]
    by_cases h : jsTruthyToken st.storedRefresh = true
    · simp only [h, if_pos]
      cases postResult <;> rfl
    · simp [h]
  refine ⟨by rw [hmodel], by rw [hmodel], ?_, ?_⟩
  · intro c
    rw [hmodel]
    rfl
  · intro c hc
    rw [hmodel]
    simp [requestInterceptor, jsTruthyToken, configAuthHeader, hc, ensureAxiosHeaders, axGet]

/-- Witness for C9: a failing logout POST still clears the session and a
bare config afterwards carries no Authorization header. -/
theorem C9_logout_total_witness :
    configAuthHeader
        (requestInterceptor
          (logoutModel ⟨some "a", some "r", some "a"⟩ (.error "network down")).2.accessToken
          ⟨"/guardias/", "get", none⟩)
      = none :=
  (C9_logout_total ⟨some "a", some "r", some "a"⟩ (.error "network down")).2.2.2
    ⟨"/guardias/", "get", none⟩ rfl

/-! ### services/solicitudes.service.ts: validation-error translation -/

/-- JavaScript `String(x)` on the modelled values; an array stringifies as
its elements joined with a comma, where null/undefined elements become the
empty string (Array.prototype.toString). -/
def jsToString (v : JValue) : String :=
  match v with
  | .null => "null"
  | .undefined => "undefined"
  | .bool b => if b then "true" else "false"
  | .num n => toString n
  | .str s => s
  | .obj _ => "[object Object]"
  | .arr l =>
    String.intercalate ","
      (l.attach.map (fun p =>
        match p with
        | ⟨.null, _⟩ => ""
        | ⟨.undefined, _⟩ => ""
        | ⟨x, _⟩ => jsToString x))
termination_by sizeOf v
decreasing_by
  simp_wf
  have hx : x ∈ l := by assumption
  have := List.sizeOf_lt_of_mem hx
  omega

/-- Array.prototype.join with an explicit separator: null/undefined
elements become the empty string, the rest are stringified. -/
def jsJoin (l : List JValue) (sep : String) : String :=
  String.intercalate sep
    (l.map (fun x =>
      match x with
      | .null => ""
      | .undefined => ""
      | v => jsToString v))

/-- How the shared catch block settles: a fresh `Error` with the given
message is thrown, or the original error is rethrown unchanged. -/
inductive CatchResult where
  | thrownNew (message : String)
  | rethrown
deriving Repr, DecidableEq

/-- The catch block shared verbatim by `createSolicitud` (part_001 lines
96-104) and `updateSolicitud` (lines 112-119).  `detail` is
`err.response?.data`, with undefined standing for a missing response or
body:

  if (detail?.horaFin)
    throw new Error(Array.isArray(detail.horaFin)
      ? detail.horaFin.join(', ') : String(detail.horaFin))
  if (detail?.detail) throw new Error(String(detail.detail))
  throw err
-/
def solicitudCatch (detail : JValue) : CatchResult :=
  if jsTruthy (getProp detail "horaFin") then
    match getProp detail "horaFin" with
    | .arr l => .thrownNew (jsJoin l ", ")
    | v => .thrownNew (jsToString v)
  else if jsTruthy (getProp detail "detail") then
    .thrownNew (jsToString (getProp detail "detail"))
  else
    .rethrown

/-- Whether an object value carries a field named `k` at all. -/
def hasField (v : JValue) (k : String) : Bool :=
  match v with
  | .obj fields => fields.any (fun p => p.1 == k)
  | _ => false

/-- C5 counterexample: a response body that has a `horaFin` field whose
value is null (falsy) is rethrown unchanged, while the claim — keyed on
the field being present — demands a fresh `Error` with message
`String(null)`.  The code tests truthiness, not presence. -/
theorem C5_error_translation_counterexample :
    hasField (.obj [("horaFin", JValue.null)]) "horaFin" = true
  ∧ solicitudCatch (.obj [("horaFin", JValue.null)]) = .rethrown
  ∧ CatchResult.rethrown ≠ .thrownNew (jsToString JValue.null) := by
  refine ⟨rfl, rfl, ?_⟩
  exact fun h => nomatch h

/-- C5 (amended): if the rejected body's `horaFin` field is truthy the
thrown `Error`'s message is the field's entries joined with a comma-space
(its `String` form when it is not an array); otherwise a truthy `detail`
field becomes the message; otherwise the original error is rethrown
unchanged. -/
theorem C5_error_translation_amended (detail : JValue) :
    (jsTruthy (getProp detail "horaFin") = true →
      (∀ l, getProp detail "horaFin" = .arr l →
        solicitudCatch detail = .thrownNew (jsJoin l ", "))
      ∧ (jsIsArray (getProp detail "horaFin") = false →
        solicitudCatch detail = .thrownNew (jsToString (getProp detail "horaFin"))))
  ∧ (jsTruthy (getProp detail "horaFin") = false →
      jsTruthy (getProp detail "detail") = true →
      solicitudCatch detail = .thrownNew (jsToString (getProp detail "detail")))
  ∧ (jsTruthy (getProp detail "horaFin") = false →
      jsTruthy (getProp detail "detail") = false →
      solicitudCatch detail = .rethrown) := by
  refine ⟨fun ht => ⟨?_, ?_⟩, fun hf hd => ?_, fun hf hd => ?_⟩
  · intro l hl
    simp [solicitudCatch, hl, jsTruthy]
  · intro hna
    simp only [solicitudCatch, ht, if_pos]
    cases h : getProp detail "horaFin" <;> simp_all [jsIsArray]
  · simp [solicitudCatch, hf, hd]
  · simp [solicitudCatch, hf, hd]

/-- Witness for C5 (amended): a DRF body with two `horaFin` messages, a
body with only `detail`, and an error without a usable body. -/
theorem C5_error_translation_amended_witness :
    solicitudCatch (.obj [("horaFin", JValue.arr [.str "mensaje uno", .str "mensaje dos"])])
      = .thrownNew (jsJoin [.str "mensaje uno", .str "mensaje dos"] ", ")
  ∧ solicitudCatch (.obj [("detail", JValue.str "No autorizado")])
      = .thrownNew (jsToString (JValue.str "No autorizado"))
  ∧ solicitudCatch .undefined = .rethrown := by
  refine ⟨?_, ?_, ?_⟩
  · exact ((C5_error_translation_amended
      (.obj [("horaFin", JValue.arr [.str "mensaje uno", .str "mensaje dos"])])).1 rfl).1 _ rfl
  · exact (C5_error_translation_amended (.obj [("detail", JValue.str "No autorizado")])).2.1 rfl rfl
  · exact (C5_error_translation_amended .undefined).2.2 rfl rfl

/-! ### Character-level string primitives

Core `String` functions (`toLower`, `trim`, `splitOn`, `startsWith`)
operate on byte positions and do not reduce inside the kernel, so the
model re-implements the few JavaScript string operations it needs over
the character list of the string. -/

/-- JavaScript `toLowerCase` (simple case mapping per character). -/
def jsToLower (s : String) : String := ⟨s.data.map Char.toLower⟩

/-- JavaScript `trim`: strip whitespace from both ends. -/
def jsTrim (s : String) : String :=
  ⟨((s.data.dropWhile Char.isWhitespace).reverse.dropWhile Char.isWhitespace).reverse⟩

/-- JavaScript `startsWith`. -/
def jsStartsWith (s pre : String) : Bool := pre.data.isPrefixOf s.data

/-- JavaScript `<` between strings: lexicographic on code units
(compared here through the characters' code points). -/
def strLtChars : List Char → List Char → Bool
  | [], [] => false
  | [], _ :: _ => true
  | _ :: _, [] => false
  | a :: as, b :: bs =>
    if a.toNat < b.toNat then true
    else if b.toNat < a.toNat then false
    else strLtChars as bs

/-- JavaScript `a < b` on strings. -/
def jsStrLt (a b : String) : Bool := strLtChars a.data b.data

/-- Parse a non-empty all-digit character list as a natural number (the
shape `Number`/`toNat` accepts for the serialised date fields). -/
def parseNatChars (l : List Char) : Option Nat :=
  if l ≠ [] ∧ l.all Char.isDigit then
    some (l.foldl (fun acc c => acc * 10 + (c.toNat - 48)) 0)
  else none

/-- Replace the FIRST occurrence of `pat` in `s` (JavaScript
`String.prototype.replace` with a string pattern). -/
def replaceFirstList (pat repl : List Char) : List Char → List Char
  | [] => if pat.isPrefixOf [] then repl else []
  | c :: cs =>
    if pat.isPrefixOf (c :: cs) then repl ++ (c :: cs).drop pat.length
    else c :: replaceFirstList pat repl cs

/-- JavaScript `s.replace(pat, repl)` (first occurrence only). -/
def jsReplaceFirst (s pat repl : String) : String :=
  ⟨replaceFirstList pat.data repl.data s.data⟩

/-! ### services/reportes.service.ts: durHours and kpisPorArea

Timestamps: the code builds `new Date(fecha + "T" + hora)` and subtracts
`getTime()` values.  The model parses the canonical shapes the backend
serialises ("YYYY-MM-DD" and "HH:MM[:SS]") into milliseconds, using the
standard civil-calendar day count; an unparsable string makes JavaScript
produce NaN, which is not a rational — the model collapses that case to a
duration of 0, which like NaN is not negative, so the clamping claim is
unaffected. -/

/-- Day number of a proleptic-Gregorian civil date (days since 1970-01-01,
the usual days-from-civil computation). -/
def daysFromCivil (y m d : Int) : Int :=
  let y2 : Int := if m ≤ 2 then y - 1 else y
  let era : Int := (if y2 ≥ 0 then y2 else y2 - 399) / 400
  let yoe : Int := y2 - era * 400
  let mp : Int := (m + 9) % 12
  let doy : Int := (153 * mp + 2) / 5 + d - 1
  let doe : Int := yoe * 365 + yoe / 4 - yoe / 100 + doy
  era * 146097 + doe - 719468

/-- Milliseconds in a "HH:MM" or "HH:MM:SS" string. -/
def timeMs (t : String) : Option Int :=
  match t.data.splitOn ':' with
  | [h, m] => do
    let h ← parseNatChars h
    let m ← parseNatChars m
    pure ((h : Int) * 3600000 + (m : Int) * 60000)
  | [h, m, s] => do
    let h ← parseNatChars h
    let m ← parseNatChars m
    let s ← parseNatChars s
    pure ((h : Int) * 3600000 + (m : Int) * 60000 + (s : Int) * 1000)
  | _ => none

/-- Milliseconds since the epoch of a "YYYY-MM-DDTHH:MM[:SS]" timestamp,
given as its two halves. -/
def getTimeMs (fecha hora : String) : Option Int :=
  match fecha.data.splitOn '-' with
  | [y, m, d] => do
    let y ← parseNatChars y
    let m ← parseNatChars m
    let d ← parseNatChars d
    let ms ← timeMs hora
    pure (daysFromCivil y m d * 86400000 + ms)
  | _ => none

/-- `durHours` (guardias.service.ts lines 148-152): the difference of the
two same-day timestamps in hours, clamped below at 0. -/
def durHours (fecha hi hf : String) : ℚ :=
  match getTimeMs fecha hi, getTimeMs fecha hf with
  | some a, some b => max 0 (((b : ℚ) - (a : ℚ)) / 3600000)
  | _, _ => 0

/-- The reservation states the backend model exposes. -/
inductive EstadoSolicitud where
  | PENDIENTE
  | APROBADA
  | RECHAZADA
  | CANCELADA
deriving Repr, DecidableEq

/-- A reservation request row as the reportes service receives it. -/
structure Solicitud where
  id : Int
  fecha : String
  horaInicio : String
  horaFin : String
  estado : EstadoSolicitud
  copropietario : Int
  areacomun : Int
deriving Repr, DecidableEq

/-- The per-area accumulator of `kpisPorArea`. -/
structure KPI where
  areaId : Int
  total : Nat
  aprobadas : Nat
  canceladas : Nat
  rechazadas : Nat
  horasReservadas : ℚ
deriving Repr, DecidableEq

/-- The freshly created accumulator for an area (all counters zero). -/
def zeroKPI (a : Int) : KPI := ⟨a, 0, 0, 0, 0, 0⟩

/-- The body of the `kpisPorArea` loop once the accumulator `m` for the
row's area is at hand: bump `total`, then the counter matching the row's
state, adding the clamped duration for approved rows. -/
def bumpKPI (m : KPI) (r : Solicitud) : KPI :=
  let m1 := { m with total := m.total + 1 }
  match r.estado with
  | .APROBADA =>
    { m1 with aprobadas := m1.aprobadas + 1,
              horasReservadas :=
                m1.horasReservadas + durHours r.fecha r.horaInicio r.horaFin }
  | .CANCELADA => { m1 with canceladas := m1.canceladas + 1 }
  | .RECHAZADA => { m1 with rechazadas := m1.rechazadas + 1 }
  | .PENDIENTE => m1

/-- One iteration of the `for (const r of rows)` loop over the
`Record<number, KPI>` map, modelled as an association list: reuse the
area's accumulator when present, create it otherwise.  (A JavaScript
object with integer-like keys enumerates them in ascending order; the
model keeps insertion order instead, which only permutes the returned
list and is irrelevant to the per-area records.) -/
def kpisStep (acc : List (Int × KPI)) (r : Solicitud) : List (Int × KPI) :=
  match acc.lookup r.areacomun with
  | some k =>
    acc.map (fun p => if p.1 == r.areacomun then (p.1, bumpKPI k r) else p)
  | none => acc ++ [(r.areacomun, bumpKPI (zeroKPI r.areacomun) r)]

/-- `kpisPorArea` (guardias.service.ts lines 170-200): fold the rows into
the per-area map and return its values. -/
def kpisPorArea (rows : List Solicitud) : List KPI :=
  (rows.foldl kpisStep []).map Prod.snd

/-- Written from the claim: the KPI record the claim predicts for area
`a` — `total` counts the rows of the area, the three state counters count
its rows in each closed state, and `horasReservadas` sums `durHours` over
its approved rows only. -/
def kpiSpecOfArea (rows : List Solicitud) (a : Int) : KPI :=
  let ofArea := rows.filter (fun r => r.areacomun == a)
  { areaId := a
  , total := ofArea.length
  , aprobadas := (ofArea.filter (fun r => r.estado == .APROBADA)).length
  , canceladas := (ofArea.filter (fun r => r.estado == .CANCELADA)).length
  , rechazadas := (ofArea.filter (fun r => r.estado == .RECHAZADA)).length
  , horasReservadas :=
      ((ofArea.filter (fun r => r.estado == .APROBADA)).map
        (fun r => durHours r.fecha r.horaInicio r.horaFin)).sum }

theorem durHours_nonneg (f hi hf : String) : 0 ≤ durHours f hi hf := by
  unfold durHours
  cases getTimeMs f hi <;> cases getTimeMs f hf <;> simp

theorem bumpKPI_areaId (m : KPI) (r : Solicitud) : (bumpKPI m r).areaId = m.areaId := by
  unfold bumpKPI
  cases r.estado <;> rfl

theorem foldl_bumpKPI (rs : List Solicitud) (k : KPI) :
    rs.foldl bumpKPI k =
      { areaId := k.areaId
      , total := k.total + rs.length
      , aprobadas := k.aprobadas + (rs.filter (fun r => r.estado == .APROBADA)).length
      , canceladas := k.canceladas + (rs.filter (fun r => r.estado == .CANCELADA)).length
      , rechazadas := k.rechazadas + (rs.filter (fun r => r.estado == .RECHAZADA)).length
      , horasReservadas := k.horasReservadas +
          ((rs.filter (fun r => r.estado == .APROBADA)).map
            (fun r => durHours r.fecha r.horaInicio r.horaFin)).sum } := by
  induction rs generalizing k with
  | nil => simp
  | cons r rs ih =>
    rw [List.foldl_cons, ih]
    cases h : r.estado <;>
      simp [bumpKPI, h, List.filter_cons, KPI.mk.injEq, beq_iff_eq] <;>
      repeat' apply And.intro
    all_goals first | rfl | omega | ring

theorem lookup_mem {acc : List (Int × KPI)} {a : Int} {v : KPI}
    (h : acc.lookup a = some v) : (a, v) ∈ acc := by
  induction acc with
  | nil => exact nomatch h
  | cons p t ih =>
    obtain ⟨k, b⟩ := p
    rw [List.lookup_cons] at h
    by_cases hk : (a == k) = true
    · have hek : a = k := by simpa using hk
      simp only [hk] at h
      obtain rfl : b = v := by simpa using h
      subst hek
      exact List.mem_cons_self _ _
    · have hf : (a == k) = false := by simpa using hk
      simp only [hf] at h
      exact List.mem_cons_of_mem _ (ih h)

theorem lookup_eq_none_not_mem {acc : List (Int × KPI)} {a : Int}
    (h : acc.lookup a = none) : a ∉ acc.map Prod.fst := by
  induction acc with
  | nil => simp
  | cons p t ih =>
    obtain ⟨k, b⟩ := p
    rw [List.lookup_cons] at h
    by_cases hk : (a == k) = true
    · simp only [hk] at h
      exact nomatch h
    · have hf : (a == k) = false := by simpa using hk
      simp only [hf] at h
      have hne : a ≠ k := by simpa using hf
      simp only [List.map_cons, List.mem_cons]
      rintro (rfl | hmem)
      · exact hne rfl
      · exact ih h hmem

theorem nodup_lookup_of_mem {acc : List (Int × KPI)} {a : Int} {v : KPI}
    (hnd : (acc.map Prod.fst).Nodup) (hmem : (a, v) ∈ acc) :
    acc.lookup a = some v := by
  induction acc with
  | nil => exact absurd hmem (List.not_mem_nil _)
  | cons p t ih =>
    obtain ⟨k, b⟩ := p
    simp only [List.map_cons, List.nodup_cons] at hnd
    rw [List.lookup_cons]
    rcases List.mem_cons.mp hmem with heq | hmem2
    · injection heq with h1 h2
      subst h1
      subst h2
      simp
    · have hka : a ≠ k := by
        rintro rfl
        exact hnd.1 (List.mem_map.mpr ⟨(a, v), hmem2, rfl⟩)
      have hf : (a == k) = false := by simpa using hka
      simp only [hf]
      exact ih hnd.2 hmem2

theorem lookup_append_single {acc : List (Int × KPI)} {a : Int} (v : KPI)
    (h : acc.lookup a = none) : (acc ++ [(a, v)]).lookup a = some v := by
  induction acc with
  | nil => simp [List.lookup_cons]
  | cons p t ih =>
    obtain ⟨k, b⟩ := p
    rw [List.lookup_cons] at h
    rw [List.cons_append, List.lookup_cons]
    by_cases hk : (a == k) = true
    · simp only [hk] at h
      exact nomatch h
    · have hf : (a == k) = false := by simpa using hk
      simp only [hf] at h ⊢
      exact ih h

theorem lookup_append_other {acc : List (Int × KPI)} {c a : Int} (v : KPI)
    (hne : a ≠ c) : (acc ++ [(c, v)]).lookup a = acc.lookup a := by
  induction acc with
  | nil =>
    have hf : (a == c) = false := by simpa using hne
    simp [List.lookup_cons, hf]
  | cons p t ih =>
    obtain ⟨k, b⟩ := p
    rw [List.cons_append, List.lookup_cons, List.lookup_cons]
    by_cases hk : (a == k) = true
    · simp only [hk]
    · have hf : (a == k) = false := by simpa using hk
      simp only [hf]
      exact ih

theorem lookup_map_update_self {acc : List (Int × KPI)} {c : Int} {k0 : KPI} (v : KPI)
    (h : acc.lookup c = some k0) :
    (acc.map (fun p => if p.1 == c then (p.1, v) else p)).lookup c = some v := by
  induction acc with
  | nil => exact nomatch h
  | cons p t ih =>
    obtain ⟨k, b⟩ := p
    rw [List.lookup_cons] at h
    by_cases hk : (c == k) = true
    · have hck : c = k := by simpa using hk
      subst hck
      simp [List.lookup_cons]
    · have hf : (c == k) = false := by simpa using hk
      simp only [hf] at h
      have hkc : (k == c) = false := by
        have hne : c ≠ k := by simpa using hf
        simpa using hne.symm
      simp only [List.map_cons, hkc, Bool.false_eq_true, if_false]
      rw [List.lookup_cons]
      simp only [hf]
      exact ih h

theorem lookup_map_update_other {acc : List (Int × KPI)} {c a : Int} (v : KPI)
    (hne : a ≠ c) :
    (acc.map (fun p => if p.1 == c then (p.1, v) else p)).lookup a = acc.lookup a := by
  induction acc with
  | nil => rfl
  | cons p t ih =>
    obtain ⟨k, b⟩ := p
    simp only [List.map_cons]
    by_cases hkc : (k == c) = true
    · have hk : k = c := by simpa using hkc
      have hak : (a == k) = false := by
        have : a ≠ k := hk ▸ hne
        simpa using this
      simp only [hkc, if_true]
      rw [List.lookup_cons, List.lookup_cons]
      simp only [hak]
      exact ih
    · have hf : (k == c) = false := by simpa using hkc
      simp only [hf, Bool.false_eq_true, if_false]
      rw [List.lookup_cons, List.lookup_cons]
      by_cases hak : (a == k) = true
      · simp only [hak]
      · have haf : (a == k) = false := by simpa using hak
        simp only [haf]
        exact ih

theorem kpisStep_lookup_self (acc : List (Int × KPI)) (r : Solicitud) :
    (kpisStep acc r).lookup r.areacomun
      = some (bumpKPI ((acc.lookup r.areacomun).getD (zeroKPI r.areacomun)) r) := by
  unfold kpisStep
  cases hl : acc.lookup r.areacomun with
  | none =>
    simp only [Option.getD_none]
    exact lookup_append_single _ hl
  | some k =>
    simp only [Option.getD_some]
    exact lookup_map_update_self _ hl

theorem kpisStep_lookup_other (acc : List (Int × KPI)) (r : Solicitud) {a : Int}
    (hne : a ≠ r.areacomun) :
    (kpisStep acc r).lookup a = acc.lookup a := by
  unfold kpisStep
  cases hl : acc.lookup r.areacomun with
  | none => exact lookup_append_other _ hne
  | some k => exact lookup_map_update_other _ hne

theorem foldl_kpisStep_lookup (rows : List Solicitud) (acc : List (Int × KPI)) (a : Int) :
    (rows.foldl kpisStep acc).lookup a =
      match acc.lookup a, rows.filter (fun r => r.areacomun == a) with
      | some k, ofA => some (ofA.foldl bumpKPI k)
      | none, [] => none
      | none, r0 :: rest => some (rest.foldl bumpKPI (bumpKPI (zeroKPI a) r0)) := by
  induction rows generalizing acc with
  | nil =>
    cases h : acc.lookup a <;> simp [h]
  | cons r rows ih =>
    rw [List.foldl_cons, ih]
    by_cases hra : r.areacomun = a
    · have hb : (r.areacomun == a) = true := by simpa using hra
      have hstep := kpisStep_lookup_self acc r
      rw [hra] at hstep
      rw [hstep]
      cases hl : acc.lookup a with
      | some k => simp [List.filter_cons, hb, hl]
      | none => simp [List.filter_cons, hb, hl]
    · have hb : (r.areacomun == a) = false := by simpa using hra
      rw [kpisStep_lookup_other acc r (Ne.symm hra)]
      simp [List.filter_cons, hb]

/-- Well-formedness of the association-list map: keys are distinct and
every accumulator records its own key as `areaId`. -/
def MapWF (acc : List (Int × KPI)) : Prop :=
  (acc.map Prod.fst).Nodup ∧ ∀ p ∈ acc, (p.2).areaId = p.1

theorem kpisStep_wf {acc : List (Int × KPI)} (r : Solicitud) (h : MapWF acc) :
    MapWF (kpisStep acc r) := by
  unfold kpisStep
  cases hl : acc.lookup r.areacomun with
  | some k =>
    have hkeys : (acc.map (fun p => if p.1 == r.areacomun then (p.1, bumpKPI k r) else p)).map
        Prod.fst = acc.map Prod.fst := by
      rw [List.map_map]
      apply List.map_congr_left
      intro p _
      simp only [Function.comp]
      split <;> rfl
    refine ⟨by rw [hkeys]; exact h.1, ?_⟩
    intro p hp
    obtain ⟨q, hq, hpe⟩ := List.mem_map.mp hp
    by_cases hqc : (q.1 == r.areacomun) = true
    · rw [if_pos hqc] at hpe
      subst hpe
      have hkmem := lookup_mem hl
      have hkarea : k.areaId = r.areacomun := h.2 _ hkmem
      have hq1 : q.1 = r.areacomun := by simpa using hqc
      simp [bumpKPI_areaId, hkarea, hq1]
    · rw [if_neg hqc] at hpe
      subst hpe
      exact h.2 q hq
  | none =>
    constructor
    · rw [List.map_append]
      refine List.Nodup.append h.1 (by simp) ?_
      intro x hx hx2
      have hxa : x = r.areacomun := by simpa using hx2
      subst hxa
      exact lookup_eq_none_not_mem hl hx
    · intro p hp
      rcases List.mem_append.mp hp with h1 | h2
      · exact h.2 p h1
      · have hpe : p = (r.areacomun, bumpKPI (zeroKPI r.areacomun) r) := by simpa using h2
        subst hpe
        simp [bumpKPI_areaId, zeroKPI]

theorem foldl_kpisStep_wf (rows : List Solicitud) :
    ∀ acc : List (Int × KPI), MapWF acc → MapWF (rows.foldl kpisStep acc) := by
  induction rows with
  | nil => exact fun acc h => h
  | cons r rows ih => exact fun acc h => ih _ (kpisStep_wf r h)

theorem kpisPorArea_lookup_spec (rows : List Solicitud) (a : Int)
    (ha : a ∈ rows.map (fun r => r.areacomun)) :
    (rows.foldl kpisStep []).lookup a = some (kpiSpecOfArea rows a) := by
  obtain ⟨r0, hr0, hr0a⟩ := List.mem_map.mp ha
  have hr0f : r0 ∈ rows.filter (fun r => r.areacomun == a) :=
    List.mem_filter.mpr ⟨hr0, by simpa using hr0a⟩
  have hne : rows.filter (fun r => r.areacomun == a) ≠ [] := List.ne_nil_of_mem hr0f
  rw [foldl_kpisStep_lookup rows [] a]
  cases hfil : rows.filter (fun r => r.areacomun == a) with
  | nil => exact absurd hfil hne
  | cons rh rest =>
    have hfold : (rh :: rest).foldl bumpKPI (zeroKPI a) = kpiSpecOfArea rows a := by
      rw [← hfil, foldl_bumpKPI]
      simp [kpiSpecOfArea, zeroKPI]
    rw [← hfold]
    simp

theorem length_filter_estado_partition (l : List Solicitud) :
    (l.filter (fun r => r.estado == .APROBADA)).length
      + (l.filter (fun r => r.estado == .CANCELADA)).length
      + (l.filter (fun r => r.estado == .RECHAZADA)).length
      + (l.filter (fun r => r.estado == .PENDIENTE)).length = l.length := by
  induction l with
  | nil => rfl
  | cons r t ih =>
    cases h : r.estado <;>
      simp [List.filter_cons, h, beq_iff_eq] <;> omega

/-- C7: for every area value occurring in the rows, `kpisPorArea` contains
exactly one KPI record for it, and that record is the one the claim
describes (`kpiSpecOfArea`): `total` counts the area's rows, the three
closed-state counters count its rows per state, `horasReservadas` sums
`durHours` over its approved rows only; the three counters sum to at most
`total` with equality exactly when the area has no PENDIENTE row, and
`durHours` is clamped at 0, hence never negative. -/
theorem C7_kpisPorArea_per_area (rows : List Solicitud) (a : Int)
    (ha : a ∈ rows.map (fun r => r.areacomun)) :
    kpiSpecOfArea rows a ∈ kpisPorArea rows
  ∧ (∀ k ∈ kpisPorArea rows, k.areaId = a → k = kpiSpecOfArea rows a)
  ∧ (kpiSpecOfArea rows a).aprobadas + (kpiSpecOfArea rows a).canceladas
      + (kpiSpecOfArea rows a).rechazadas ≤ (kpiSpecOfArea rows a).total
  ∧ ((kpiSpecOfArea rows a).aprobadas + (kpiSpecOfArea rows a).canceladas
      + (kpiSpecOfArea rows a).rechazadas = (kpiSpecOfArea rows a).total
     ↔ ∀ r ∈ rows, r.areacomun = a → r.estado ≠ .PENDIENTE)
  ∧ (∀ f hi hf, 0 ≤ durHours f hi hf) := by
  have hwf : MapWF (rows.foldl kpisStep []) :=
    foldl_kpisStep_wf rows [] ⟨List.nodup_nil, by intro p hp; exact absurd hp (List.not_mem_nil p)⟩
  have hlook := kpisPorArea_lookup_spec rows a ha
  have hpart := length_filter_estado_partition (rows.filter (fun r => r.areacomun == a))
  refine ⟨?_, ?_, ?_, ?_, fun f hi hf => durHours_nonneg f hi hf⟩
  · exact List.mem_map.mpr ⟨(a, kpiSpecOfArea rows a), lookup_mem hlook, rfl⟩
  · intro k hk hka
    obtain ⟨p, hp, hpk⟩ := List.mem_map.mp hk
    have hp1 : p.1 = a := by
      have := hwf.2 p hp
      rw [hpk] at this
      rw [← this, hka]
    have hpmem : (a, k) ∈ rows.foldl kpisStep [] := by
      have : p = (a, k) := by
        obtain ⟨p1, p2⟩ := p
        simp only at hp1 hpk
        rw [hp1, hpk]
      rwa [this] at hp
    have := nodup_lookup_of_mem hwf.1 hpmem
    rw [hlook] at this
    exact (Option.some.inj this).symm
  · simp only [kpiSpecOfArea]
    omega
  · constructor
    · intro heq r hr hra hpend
      have hmem : r ∈ (rows.filter (fun r => r.areacomun == a)).filter
          (fun r => r.estado == .PENDIENTE) :=
        List.mem_filter.mpr ⟨List.mem_filter.mpr ⟨hr, by simpa using hra⟩, by simpa using hpend⟩
      have hlen : 0 < ((rows.filter (fun r => r.areacomun == a)).filter
          (fun r => r.estado == .PENDIENTE)).length :=
        List.length_pos.mpr (List.ne_nil_of_mem hmem)
      simp only [kpiSpecOfArea] at heq
      omega
    · intro hnone
      have hzero : ((rows.filter (fun r => r.areacomun == a)).filter
          (fun r => r.estado == .PENDIENTE)).length = 0 := by
        rw [List.length_eq_zero, List.filter_eq_nil_iff]
        intro r hr
        have hmem := List.mem_filter.mp hr
        have := hnone r hmem.1 (by simpa using hmem.2)
        simpa using this
      simp only [kpiSpecOfArea]
      omega

/-- Witness for C7: three concrete rows over two areas. -/
theorem C7_kpisPorArea_per_area_witness :
    kpiSpecOfArea
        [⟨1, "2025-01-01", "10:00", "12:00", .APROBADA, 1, 5⟩,
         ⟨2, "2025-01-01", "09:00", "10:00", .PENDIENTE, 1, 5⟩,
         ⟨3, "2025-01-02", "08:00", "09:30", .CANCELADA, 2, 6⟩] 5
      ∈ kpisPorArea
        [⟨1, "2025-01-01", "10:00", "12:00", .APROBADA, 1, 5⟩,
         ⟨2, "2025-01-01", "09:00", "10:00", .PENDIENTE, 1, 5⟩,
         ⟨3, "2025-01-02", "08:00", "09:30", .CANCELADA, 2, 6⟩] :=
  (C7_kpisPorArea_per_area _ 5 (by simp)).1

/-! ### pages/guardias/GuardiaListPage.tsx: client-side filter, sort,
paginate

The page fetches the whole list once and derives the displayed rows with
three useMemo steps (filter by the debounced, trimmed search text; sort by
the ordering key; slice the current page).  The ordering key is one of the
eight literals of the `Ordering` union type. -/

/-- A guard row, with the fields the list page reads (all serialised as
strings by the backend). -/
structure Guardia where
  nombre : String
  apellido : String
  carnet : String
  correo : String
  telefono : String
  usuario : String
  turno : String
deriving Repr, DecidableEq

/-- JavaScript `a.includes(b)`: `b` occurs as a contiguous substring. -/
def jsIncludes (s sub : String) : Bool :=
  decide (sub.data <:+: s.data)

/-- The `Ordering` union type of the page: a field name, optionally
prefixed with a minus for descending. -/
inductive GOrdering where
  | apellido
  | apellidoDesc
  | nombre
  | nombreDesc
  | carnet
  | carnetDesc
  | turno
  | turnoDesc
deriving Repr, DecidableEq

/-- The string literal each `Ordering` member stands for. -/
def orderingKey : GOrdering → String
  | .apellido => "apellido"
  | .apellidoDesc => "-apellido"
  | .nombre => "nombre"
  | .nombreDesc => "-nombre"
  | .carnet => "carnet"
  | .carnetDesc => "-carnet"
  | .turno => "turno"
  | .turnoDesc => "-turno"

/-- Dynamic field access `(a as any)[field] ?? ''` for the four sortable
fields; any other name reads undefined, which `?? ''` turns into the
empty string. -/
def guardiaFieldGet (name : String) (r : Guardia) : String :=
  if name = "apellido" then r.apellido
  else if name = "nombre" then r.nombre
  else if name = "carnet" then r.carnet
  else if name = "turno" then r.turno
  else ""

/-- The sort comparator of the page (part_003 lines 186-196):
dir from the minus prefix, field from `ordering.replace('-', '')`,
lowercase both values, compare lexicographically. -/
def cmpGuardia (ordering : String) (a b : Guardia) : Int :=
  let dir : Int := if jsStartsWith ordering "-" then -1 else 1
  let field := jsReplaceFirst ordering "-" ""
  let va := jsToLower (guardiaFieldGet field a)
  let vb := jsToLower (guardiaFieldGet field b)
  if jsStrLt va vb then -1 * dir
  else if jsStrLt vb va then 1 * dir
  else 0

/-- Stable insertion of `x` in front of the first element not strictly
before it. -/
def insertSorted (cmp : α → α → Int) (x : α) : List α → List α
  | [] => [x]
  | y :: ys => if cmp x y ≤ 0 then x :: y :: ys else y :: insertSorted cmp x ys

/-- A stable sort by a comparator, as Array.prototype.sort guarantees
since ES2019: equal elements keep their relative order. -/
def stableSortBy (cmp : α → α → Int) (l : List α) : List α :=
  l.foldr (insertSorted cmp) []

/-- The local filter (part_003 lines 170-183): keep every row when the
debounced text is empty, else keep the rows where the lowercased needle
occurs in one of the seven listed fields. -/
def guardiaFiltered (all : List Guardia) (qDebounced : String) : List Guardia :=
  if qDebounced = "" then all
  else
    let needle := jsToLower qDebounced
    all.filter (fun r =>
      jsIncludes (jsToLower r.nombre) needle ||
      jsIncludes (jsToLower r.apellido) needle ||
      jsIncludes (jsToLower r.carnet) needle ||
      jsIncludes (jsToLower r.correo) needle ||
      jsIncludes (jsToLower r.telefono) needle ||
      jsIncludes (jsToLower r.usuario) needle ||
      jsIncludes (jsToLower r.turno) needle)

/-- The local ordering step (part_003 lines 186-197). -/
def guardiaSorted (filtered : List Guardia) (ordering : String) : List Guardia :=
  stableSortBy (cmpGuardia ordering) filtered

/-- JavaScript `Array.prototype.slice(s, e)` for in-range indices. -/
def jsSlice (l : List α) (s e : Nat) : List α :=
  (l.drop s).take (e - s)

/-- The pagination step (part_003 lines 200-203):
`sorted.slice(start, start + pageSize)` with `start = (page-1)*pageSize`. -/
def guardiaPageItems (sorted : List Guardia) (page pageSize : Nat) : List Guardia :=
  jsSlice sorted ((page - 1) * pageSize) ((page - 1) * pageSize + pageSize)

/-- The rows the page displays: the three steps composed, with the search
text debounced to its trimmed form. -/
def guardiaListDisplay (all : List Guardia) (q : String) (o : GOrdering)
    (page pageSize : Nat) : List Guardia :=
  guardiaPageItems (guardiaSorted (guardiaFiltered all (jsTrim q)) (orderingKey o)) page pageSize

/-- Written from the claim: keep the rows in which the trimmed, lowercased
search string occurs as a substring of at least one of the listed text
fields; an empty search keeps every row. -/
def specFiltered (all : List Guardia) (q : String) : List Guardia :=
  if jsTrim q = "" then all
  else
    let needle := jsToLower (jsTrim q)
    all.filter (fun r =>
      [r.nombre, r.apellido, r.carnet, r.correo, r.telefono, r.usuario, r.turno].any
        (fun f => jsIncludes (jsToLower f) needle))

/-- Written from the claim: whether the ordering key starts with a minus
(descending). -/
def gOrderingIsDesc (o : GOrdering) : Bool := jsStartsWith (orderingKey o) "-"

/-- Written from the claim: the selected field of an ordering key. -/
def gOrderingField (o : GOrdering) : Guardia → String :=
  match o with
  | .apellido | .apellidoDesc => fun r => r.apellido
  | .nombre | .nombreDesc => fun r => r.nombre
  | .carnet | .carnetDesc => fun r => r.carnet
  | .turno | .turnoDesc => fun r => r.turno

/-- Written from the claim: stably sort case-insensitively by the selected
field, descending exactly when the key starts with a minus (descending
order is the ascending comparison with its arguments swapped). -/
def specSorted (l : List Guardia) (o : GOrdering) : List Guardia :=
  let key := fun r => jsToLower (gOrderingField o r)
  stableSortBy
    (fun a b =>
      if gOrderingIsDesc o then
        if jsStrLt (key b) (key a) then -1 else if jsStrLt (key a) (key b) then 1 else 0
      else
        if jsStrLt (key a) (key b) then -1 else if jsStrLt (key b) (key a) then 1 else 0) l

/-- Written from the claim: slice [(p-1)*n, p*n) of the filtered, sorted
list. -/
def specDisplay (all : List Guardia) (q : String) (o : GOrdering)
    (p n : Nat) : List Guardia :=
  jsSlice (specSorted (specFiltered all q) o) ((p - 1) * n) (p * n)

theorem strLtChars_asymm : ∀ as bs : List Char, strLtChars as bs = true → strLtChars bs as = false := by
  intro as
  induction as with
  | nil =>
    intro bs h
    cases bs with
    | nil => simp [strLtChars] at h
    | cons b bs => simp [strLtChars]
  | cons a as ih =>
    intro bs h
    cases bs with
    | nil => simp [strLtChars] at h
    | cons b bs =>
      simp only [strLtChars] at h ⊢
      by_cases h1 : a.toNat < b.toNat
      · have h2 : ¬ b.toNat < a.toNat := by omega
        simp [h1, h2]
      · by_cases h2 : b.toNat < a.toNat
        · simp [h1, h2] at h
        · simp only [h1, h2, if_false] at h ⊢
          exact ih bs h

theorem jsStrLt_asymm (x y : String) (h : jsStrLt x y = true) : jsStrLt y x = false :=
  strLtChars_asymm x.data y.data h

theorem ite_swap_strLt (x y : String) :
    (if jsStrLt x y then (1 : Int) else if jsStrLt y x then -1 else 0)
      = (if jsStrLt y x then -1 else if jsStrLt x y then 1 else 0) := by
  by_cases hA : jsStrLt x y = true
  · have hB := jsStrLt_asymm x y hA
    simp [hA, hB]
  · have hA2 : jsStrLt x y = false := by simpa using hA
    simp [hA2]

theorem guardiaFiltered_trim_eq_spec (all : List Guardia) (q : String) :
    guardiaFiltered all (jsTrim q) = specFiltered all q := by
  unfold guardiaFiltered specFiltered
  by_cases h : jsTrim q = ""
  · simp [h]
  · simp [h, List.any_cons, List.any_nil, Bool.or_false, Bool.or_assoc]

theorem cmpGuardia_eq_specCmp (o : GOrdering) (a b : Guardia) :
    cmpGuardia (orderingKey o) a b =
      (if gOrderingIsDesc o then
        if jsStrLt (jsToLower (gOrderingField o b)) (jsToLower (gOrderingField o a)) then -1
        else if jsStrLt (jsToLower (gOrderingField o a)) (jsToLower (gOrderingField o b)) then 1
        else 0
      else
        if jsStrLt (jsToLower (gOrderingField o a)) (jsToLower (gOrderingField o b)) then -1
        else if jsStrLt (jsToLower (gOrderingField o b)) (jsToLower (gOrderingField o a)) then 1
        else 0) := by
  cases o <;>
    simp only [cmpGuardia, orderingKey, gOrderingIsDesc, gOrderingField,
      show jsStartsWith "apellido" "-" = false from by decide,
      show jsStartsWith "-apellido" "-" = true from by decide,
      show jsStartsWith "nombre" "-" = false from by decide,
      show jsStartsWith "-nombre" "-" = true from by decide,
      show jsStartsWith "carnet" "-" = false from by decide,
      show jsStartsWith "-carnet" "-" = true from by decide,
      show jsStartsWith "turno" "-" = false from by decide,
      show jsStartsWith "-turno" "-" = true from by decide,
      show jsReplaceFirst "apellido" "-" "" = "apellido" from by decide,
      show jsReplaceFirst "-apellido" "-" "" = "apellido" from by decide,
      show jsReplaceFirst "nombre" "-" "" = "nombre" from by decide,
      show jsReplaceFirst "-nombre" "-" "" = "nombre" from by decide,
      show jsReplaceFirst "carnet" "-" "" = "carnet" from by decide,
      show jsReplaceFirst "-carnet" "-" "" = "carnet" from by decide,
      show jsReplaceFirst "turno" "-" "" = "turno" from by decide,
      show jsReplaceFirst "-turno" "-" "" = "turno" from by decide,
      show (∀ r : Guardia, guardiaFieldGet "apellido" r = r.apellido) from fun r => rfl,
      show (∀ r : Guardia, guardiaFieldGet "nombre" r = r.nombre) from fun r => rfl,
      show (∀ r : Guardia, guardiaFieldGet "carnet" r = r.carnet) from fun r => rfl,
      show (∀ r : Guardia, guardiaFieldGet "turno" r = r.turno) from fun r => rfl,
      if_true, if_false, mul_one, neg_mul_neg, one_mul, mul_neg_one] <;>
    simp [ite_swap_strLt, neg_neg]

theorem stableSortBy_congr {α : Type} {c1 c2 : α → α → Int}
    (h : ∀ a b, c1 a b = c2 a b) (l : List α) :
    stableSortBy c1 l = stableSortBy c2 l := by
  have hc : c1 = c2 := funext fun a => funext fun b => h a b
  rw [hc]

theorem guardiaSorted_eq_spec (l : List Guardia) (o : GOrdering) :
    guardiaSorted l (orderingKey o) = specSorted l o := by
  unfold guardiaSorted
  simp only [specSorted]
  exact stableSortBy_congr (cmpGuardia_eq_specCmp o) l

/-- C6: for every fetched list, search string, ordering key, page `p ≥ 1`
and page size `n`, the rows the guard list page displays are exactly
slice `[(p-1)*n, p*n)` of the list obtained by first keeping the rows in
which the trimmed, lowercased search string occurs as a substring of at
least one of the listed text fields (an empty search keeps every row),
then stably sorting case-insensitively by the selected field, descending
exactly when the ordering key starts with a minus. -/
theorem C6_list_pipeline (all : List Guardia) (q : String) (o : GOrdering)
    (p n : Nat) (hp : 1 ≤ p) :
    guardiaListDisplay all q o p n = specDisplay all q o p n := by
  unfold guardiaListDisplay specDisplay guardiaPageItems
  rw [guardiaFiltered_trim_eq_spec, guardiaSorted_eq_spec]
  have harith : (p - 1) * n + n = p * n := by
    cases p with
    | zero => exact absurd hp (by omega)
    | succ k => simp [Nat.succ_sub_one, Nat.succ_mul]
  rw [harith]

/-- Three concrete guard rows for the C6 witness. -/
def sampleGuardias : List Guardia :=
  [⟨"Ana", "Zamora", "111", "ana@x.com", "700", "azamora", "DIA"⟩,
   ⟨"Luis", "Arce", "222", "luis@x.com", "701", "larce", "NOCHE"⟩,
   ⟨"Eva", "Arce", "333", "eva@x.com", "702", "earce", "ROTATIVO"⟩]

/-- Witness for C6 at a concrete list, search text, descending ordering
and first page. -/
theorem C6_list_pipeline_witness :
    guardiaListDisplay sampleGuardias "  arc " .apellidoDesc 1 2
      = specDisplay sampleGuardias "  arc " .apellidoDesc 1 2 :=
  C6_list_pipeline sampleGuardias "  arc " .apellidoDesc 1 2 (by decide)

/-! ### List-page pagination state

The page-local state (part_003 lines 141-145) and its handlers: the
Previous/Next buttons clamp at 1 and at the page count (lines 343-355),
and the effect at line 210 resets the page to 1 whenever the debounced
search, the page size or the ordering changes; the model folds that
effect into the corresponding event.  The page count (line 201) is
`Math.max(1, Math.ceil(total / pageSize))`, with `total` the length of
the filtered, sorted list. -/

/-- The UI state the pagination logic reads and writes. -/
structure PageState where
  page : Nat
  pageSize : Nat
  search : String
  ordering : GOrdering
deriving Repr, DecidableEq

/-- The events that can change that state. -/
inductive PageEvent where
  | prevPage
  | nextPage
  | setSearch (s : String)
  | setOrdering (o : GOrdering)
  | setPageSize (n : Nat)
deriving Repr, DecidableEq

/-- `Math.max(1, Math.ceil(total / pageSize))`: Nat ceiling division,
`(total + n - 1) / n`, equals the exact ceiling for positive `n`. -/
def pagesOf (total pageSize : Nat) : Nat :=
  max 1 ((total + pageSize - 1) / pageSize)

/-- `total` of the page: the length of the locally filtered and sorted
list (part_003 line 200). -/
def pageStateTotal (all : List Guardia) (st : PageState) : Nat :=
  (guardiaSorted (guardiaFiltered all (jsTrim st.search)) (orderingKey st.ordering)).length

/-- `pages` of the page (part_003 line 201). -/
def pageStatePages (all : List Guardia) (st : PageState) : Nat :=
  pagesOf (pageStateTotal all st) st.pageSize

/-- One UI event applied to the state: Previous clamps below at 1, Next
clamps above at the page count, and the three filter-changing events
reset the page to 1 (the useEffect at part_003 line 210). -/
def pageStep (all : List Guardia) (st : PageState) : PageEvent → PageState
  | .prevPage => { st with page := max 1 (st.page - 1) }
  | .nextPage => { st with page := min (pageStatePages all st) (st.page + 1) }
  | .setSearch s => { st with search := s, page := 1 }
  | .setOrdering o => { st with ordering := o, page := 1 }
  | .setPageSize n => { st with pageSize := n, page := 1 }

/-- The page sizes the select offers (part_003 line 341). -/
def validEvent : PageEvent → Prop
  | .setPageSize n => n = 5 ∨ n = 10 ∨ n = 20 ∨ n = 50
  | _ => True

/-- The invariant of the claim: the page stays within `[1, pages]` and the
page size stays positive. -/
def PageInv (all : List Guardia) (st : PageState) : Prop :=
  1 ≤ st.page ∧ st.page ≤ pageStatePages all st ∧ 0 < st.pageSize

theorem one_le_pagesOf (total n : Nat) : 1 ≤ pagesOf total n :=
  le_max_left 1 _

theorem pagesOf_covers (total n : Nat) (hn : 0 < n) :
    total ≤ pagesOf total n * n := by
  have h1 : total ≤ n * (total ⌈/⌉ n) := le_smul_ceilDiv hn
  have h2 : (total ⌈/⌉ n) ≤ pagesOf total n := by
    rw [Nat.ceilDiv_eq_add_pred_div]
    exact le_max_right 1 _
  calc total ≤ n * (total ⌈/⌉ n) := h1
    _ ≤ n * pagesOf total n := Nat.mul_le_mul_left n h2
    _ = pagesOf total n * n := Nat.mul_comm n _

theorem pagesOf_minimal (total n : Nat) (hn : 0 < n) (hgt : 1 < pagesOf total n) :
    (pagesOf total n - 1) * n < total := by
  have hceil : pagesOf total n = (total ⌈/⌉ n) := by
    rw [Nat.ceilDiv_eq_add_pred_div]
    unfold pagesOf at hgt ⊢
    omega
  have hlt : ¬ (total ⌈/⌉ n) ≤ pagesOf total n - 1 := by
    rw [← hceil]
    omega
  have := (ceilDiv_le_iff_le_mul hn).not.mp hlt
  have h2 : n * (pagesOf total n - 1) < total := by omega
  calc (pagesOf total n - 1) * n = n * (pagesOf total n - 1) := Nat.mul_comm _ _
    _ < total := h2

/-- C10: the computed page count is `max(1, ceil(total/pageSize))` — at
least one page even for an empty list, enough pages to cover every row,
and no spare full page — and every UI event preserves the page invariant:
Previous clamps at 1, Next clamps at `pages`, and a change of search
text, ordering or page size resets the page to 1, so the page always
stays inside `[1, pages]`. -/
theorem C10_pagination_invariant (all : List Guardia) (st : PageState)
    (ev : PageEvent) (hinv : PageInv all st) (hev : validEvent ev) :
    (∀ total n, 1 ≤ pagesOf total n)
  ∧ (∀ total n, 0 < n → total ≤ pagesOf total n * n)
  ∧ (∀ total n, 0 < n → 1 < pagesOf total n → (pagesOf total n - 1) * n < total)
  ∧ PageInv all ⟨1, 10, "", .apellido⟩
  ∧ PageInv all (pageStep all st ev) := by
  obtain ⟨h1, h2, h3⟩ := hinv
  have hinit : PageInv all ⟨1, 10, "", .apellido⟩ := by
    unfold PageInv pageStatePages pagesOf
    exact ⟨Nat.le_refl 1, le_max_left _ _, by decide⟩
  refine ⟨fun total n => one_le_pagesOf total n,
    fun total n hn => pagesOf_covers total n hn,
    fun total n hn hgt => pagesOf_minimal total n hn hgt, hinit, ?_⟩
  cases ev with
  | prevPage =>
    unfold PageInv pageStep
    have hpp : pageStatePages all { st with page := max 1 (st.page - 1) }
        = pageStatePages all st := rfl
    rw [hpp]
    have hge : 1 ≤ pageStatePages all st := one_le_pagesOf _ _
    exact ⟨le_max_left _ _, max_le hge ((Nat.sub_le st.page 1).trans h2), h3⟩
  | nextPage =>
    unfold PageInv pageStep
    have hpp : pageStatePages all
        { st with page := min (pageStatePages all st) (st.page + 1) }
        = pageStatePages all st := rfl
    rw [hpp]
    have hge : 1 ≤ pageStatePages all st := one_le_pagesOf _ _
    exact ⟨le_min hge (Nat.succ_le_succ (Nat.zero_le _)), min_le_left _ _, h3⟩
  | setSearch s =>
    unfold PageInv pageStep pageStatePages pagesOf
    exact ⟨Nat.le_refl 1, le_max_left _ _, h3⟩
  | setOrdering o =>
    unfold PageInv pageStep pageStatePages pagesOf
    exact ⟨Nat.le_refl 1, le_max_left _ _, h3⟩
  | setPageSize n =>
    unfold PageInv pageStep pageStatePages pagesOf
    refine ⟨Nat.le_refl 1, le_max_left _ _, ?_⟩
    rcases hev with h | h | h | h <;> (show 0 < n; omega)

/-- Witness for C10: one Next step from the initial state on a concrete
list. -/
theorem C10_pagination_invariant_witness :
    PageInv sampleGuardias
      (pageStep sampleGuardias ⟨1, 10, "", .apellido⟩ .nextPage) :=
  (C10_pagination_invariant sampleGuardias ⟨1, 10, "", .apellido⟩ .nextPage
    ⟨by decide, one_le_pagesOf _ _, by decide⟩ trivial).2.2.2.2

end CondoWeb
